import Mathlib

/-!
Verification of the pbi-mcp repository: a shallow embedding of the
Power BI client (`src/powerbi_client.py`), the MCP tool surface
(`src/mcp.py`) and the agent tool surface (`src/api.py`), together with
theorems settling the specification claims about them.

Conventions of the embedding:
* Python scalar values appearing in JSON rows are modelled by `PyVal`
  (`null`, integers, booleans, strings).  Numeric statistics are
  modelled as integers; the code treats `int` and `float` identically
  (`isinstance(x, (int, float))`), so nothing in the claims depends on
  float formatting.
* Python dicts used as insertion-ordered maps are modelled as
  association lists that update in place and append new keys at the end.
* Exceptions are modelled with `Except String`; a raised exception is an
  `Except.error` carrying the exception message.
-/

/-- A Python scalar value as it occurs in the JSON rows handled by
`powerbi_client.py`: `None`, a number, a boolean, or a string. -/
inductive PyVal where
  | null
  | num (n : Int)
  | bool (b : Bool)
  | str (s : String)
deriving DecidableEq, Repr

/-- Python truthiness of a scalar: `None` is falsy, numbers are truthy
iff nonzero, booleans are themselves, strings are truthy iff nonempty. -/
def PyVal.truthy : PyVal → Bool
  | .null => false
  | .num n => n != 0
  | .bool b => b
  | .str s => !(s.toList.isEmpty)

/-- Python `str()` of a scalar, as used by f-string interpolation in the
rendering code of `describe_dataset`. -/
def PyVal.pyStr : PyVal → String
  | .null => "None"
  | .num n => toString n
  | .bool b => if b then "True" else "False"
  | .str s => s

/-- `needle` is a leading segment of `haystack` (over character lists). -/
def charsStart : List Char → List Char → Bool
  | [], _ => true
  | _ :: _, [] => false
  | a :: as, b :: bs => a == b && charsStart as bs

/-- `needle` occurs contiguously inside `haystack` (over character lists). -/
def charsSub (needle : List Char) : List Char → Bool
  | [] => needle.isEmpty
  | b :: bs => charsStart needle (b :: bs) || charsSub needle bs

/-- Python `sub in s` substring test, lifted to `PyVal`: only strings can
contain a substring (the code only reaches this test on string names). -/
def PyVal.hasSub : PyVal → String → Bool
  | .str s, sub => charsSub sub.toList s.toList
  | _, _ => false

/-- Python `s.endswith(suf)`: the reversed string starts with the
reversed suffix. -/
def strEndsWith (s suf : String) : Bool :=
  charsStart suf.toList.reverse s.toList.reverse

/-- One raw `COLUMNSTATISTICS()` row, after the
`row.get("[X]") or row.get("X")` key-spelling fallback of
`describe_dataset` (lines 145-160 of `powerbi_client.py`) has picked the
spelling under which the engine returned each field. -/
structure StatRow where
  tableName : PyVal
  colName : PyVal
  min : PyVal
  max : PyVal
  cardinality : PyVal
deriving DecidableEq, Repr

/-- A derived column record, as appended by `describe_dataset`
(lines 174-180). -/
structure Column where
  name : PyVal
  dataType : String
  minValue : PyVal
  maxValue : PyVal
  cardinality : PyVal
deriving DecidableEq, Repr

/-- A derived table record: name plus columns in first-seen order. -/
structure Table where
  name : PyVal
  columns : List Column
deriving DecidableEq, Repr

/-- Type inference from the minimum value (`powerbi_client.py`
lines 162-172): `None` gives Unknown; `int`/`float` (and `bool`, an
`int` subclass in Python) give Number; a string gives DateTime when it
contains one of `-` `/` `:` and has length at least 8, else Text. -/
def inferDataType : PyVal → String
  | .null => "Unknown"
  | .num _ => "Number"
  | .bool _ => "Number"
  | .str s =>
    if (s.toList.contains '-' || s.toList.contains '/' || s.toList.contains ':')
        && decide (8 ≤ s.toList.length) then "DateTime"
    else "Text"

/-- The column record built from a raw row (lines 174-180). -/
def mkColumn (r : StatRow) : Column :=
  { name := r.colName
    dataType := inferDataType r.min
    minValue := r.min
    maxValue := r.max
    cardinality := r.cardinality }

/-- `tables_dict` update: append the column to the entry for
`tn`, creating the entry at the end if the key is new (insertion-ordered
dict semantics of lines 154-155 and 174). -/
def addColumn (tables : List Table) (tn : PyVal) (c : Column) : List Table :=
  match tables with
  | [] => [⟨tn, [c]⟩]
  | t :: ts => if t.name = tn then ⟨t.name, t.columns ++ [c]⟩ :: ts
               else t :: addColumn ts tn c

/-- One iteration of the row loop of `describe_dataset`
(lines 144-180): skip auto-generated date-hierarchy tables and internal
RowNumber columns, otherwise group the column under its table. -/
def buildStep (acc : List Table) (r : StatRow) : List Table :=
  if r.tableName.truthy
      && (r.tableName.hasSub "DateTableTemplate" || r.tableName.hasSub "LocalDateTable") then
    acc
  else if r.colName.truthy && r.colName.hasSub "RowNumber-" then
    acc
  else
    addColumn acc r.tableName (mkColumn r)

/-- The table list built from the raw statistics rows
(`tables = list(tables_dict.values())`, line 182). -/
def buildTables (rows : List StatRow) : List Table :=
  rows.foldl buildStep []

/-- Key-shaped column name test (lines 190-192): the Python guard
`col_name and (col_name.endswith(" Key") or ... or col_name == "ID")`.
Only a (nonempty) string can pass; the code would raise on a truthy
non-string name, which `COLUMNSTATISTICS` never produces. -/
def isKeyName : PyVal → Bool
  | .str s =>
    (PyVal.str s).truthy
      && (strEndsWith s " Key" || strEndsWith s "_Key" || strEndsWith s " ID"
          || strEndsWith s "_ID" || strEndsWith s "_id" || s == "ID")
  | _ => false

/-- `key_columns.setdefault(col_name, []).append(table_name)`
(line 193): insertion-ordered dict of key-column name to the list of
table names seen with it. -/
def addKey (m : List (PyVal × List PyVal)) (k t : PyVal) : List (PyVal × List PyVal) :=
  match m with
  | [] => [(k, [t])]
  | (k0, ts) :: rest =>
    if k0 = k then (k0, ts ++ [t]) :: rest else (k0, ts) :: addKey rest k t

/-- The `key_columns` dict built by the nested loops of lines 186-193. -/
def keyColumns (tables : List Table) : List (PyVal × List PyVal) :=
  tables.foldl
    (fun m t => t.columns.foldl
      (fun m2 c => if isKeyName c.name then addKey m2 c.name t.name else m2) m) []

/-- An inferred relationship entry (lines 198-201). -/
structure Relationship where
  keyColumn : PyVal
  tables : List PyVal
deriving DecidableEq, Repr

/-- Relationship inference (lines 195-201): every key name with more
than one recorded table yields one entry, in dict iteration order. -/
def relationships (tables : List Table) : List Relationship :=
  ((keyColumns tables).filter (fun p => 1 < p.2.length)).map (fun p => ⟨p.1, p.2⟩)

/-- The sample-range cell (line 221): the f-string of min_v and max_v
when `min_v and max_v`, else "N/A" — Python truthiness, not a null
test. -/
def sampleRange (minV maxV : PyVal) : String :=
  if minV.truthy && maxV.truthy then minV.pyStr ++ " to " ++ maxV.pyStr else "N/A"

/-- One rendered column row of the markdown-style table (lines 218-222). -/
def renderColLine (c : Column) : String :=
  "| " ++ c.name.pyStr ++ " | " ++ c.dataType ++ " | " ++ c.cardinality.pyStr
    ++ " | " ++ sampleRange c.minValue c.maxValue ++ " |"

/-- The rendered lines of one table subsection (lines 213-222). -/
def renderTableLines (t : Table) : List String :=
  ("\n### \x27" ++ t.name.pyStr ++ "\x27")
    :: "| Column | Type | Cardinality | Sample Range |"
    :: "|--------|------|-------------|--------------|"
    :: t.columns.map renderColLine

/-- One rendered relationship line (line 228); the Python join with
separator " <-> " presumes the table names are strings. -/
def renderRelLine (r : Relationship) : String :=
  "- **" ++ r.keyColumn.pyStr ++ "**: links "
    ++ String.intercalate " <-> " (r.tables.map PyVal.pyStr)

/-- All lines of the LLM context (`llm_lines`, lines 204-238). -/
def llmLines (dataset_name : String) (tables : List Table) (rels : List Relationship) : List String :=
  ["# Power BI Semantic Model: " ++ dataset_name,
   "",
   "## Overview",
   "This model contains " ++ toString tables.length ++ " tables that can be queried using DAX.",
   "",
   "## Tables and Columns"]
  ++ (tables.map renderTableLines).flatten
  ++ (if rels.isEmpty then []
      else "\n## Inferred Relationships"
        :: "The following key columns appear in multiple tables, suggesting relationships:"
        :: rels.map renderRelLine)
  ++ ["",
      "## DAX Query Tips",
      "- Use EVALUATE to return a table",
      "- Reference tables with single quotes: \x27TableName\x27",
      "- Reference columns as \x27Table\x27[Column]",
      "- Use SUMMARIZECOLUMNS for grouping and aggregation",
      "- Use TOPN for limiting results"]

/-- The result dict of `describe_dataset` (lines 242-248). -/
structure SchemaDescription where
  dataset_name : String
  dataset_id : String
  tables : List Table
  relationships : List Relationship
  llm_context : String
deriving DecidableEq, Repr

/-- The pure core of `describe_dataset` (lines 142-248), parameterised
by the dataset id obtained from the resolver and the raw statistics rows
returned by `EVALUATE COLUMNSTATISTICS()`. -/
def describe_dataset (dataset_name dataset_id : String) (stats : List StatRow) : SchemaDescription :=
  let tables := buildTables stats
  let rels := relationships tables
  { dataset_name := dataset_name
    dataset_id := dataset_id
    tables := tables
    relationships := rels
    llm_context := String.intercalate "\n" (llmLines dataset_name tables rels) }

/-- A workspace entry as returned by the `groups` listing. -/
structure Workspace where
  name : String
  id : String
  isOnDedicatedCapacity : Bool
deriving DecidableEq, Repr

/-- Python dict assignment `m[k] = v`: replace the value of an existing
key in place, else append the new key at the end. -/
def dictPut (m : List (String × Workspace)) (k : String) (v : Workspace) : List (String × Workspace) :=
  match m with
  | [] => [(k, v)]
  | (k0, v0) :: rest =>
    if k0 = k then (k0, v) :: rest else (k0, v0) :: dictPut rest k v

/-- Python `m.get(k)` on the cache dict. -/
def dictGet (m : List (String × Workspace)) (k : String) : Option Workspace :=
  match m with
  | [] => Option.none
  | (k0, v0) :: rest => if k0 = k then some v0 else dictGet rest k

/-- The dict comprehension of `list_workspaces` (line 35), mapping each
workspace name to its entry — assignments happen in listing order, so a
later workspace with a duplicate name overwrites an earlier one. -/
def wsDict (svc : List Workspace) : List (String × Workspace) :=
  svc.foldl (fun m w => dictPut m w.name w) []

/-- The mutable state of a `PowerBIClient`: `_workspaces_cache`, which
is `None` until the first successful listing. -/
structure ClientState where
  cache : Option (List (String × Workspace))
deriving DecidableEq, Repr

/-- Python `not self._workspaces_cache` (lines 40 and 49): true when the
cache is still `None` and also when it is an empty dict. -/
def cacheFalsy (st : ClientState) : Bool :=
  match st.cache with
  | Option.none => true
  | some m => m.isEmpty

/-- `list_workspaces` (lines 30-36), parameterised by the service's
workspace listing: repopulates the cache and returns the listing. -/
def list_workspaces (svc : List Workspace) : ClientState × List Workspace :=
  ({ cache := some (wsDict svc) }, svc)

/-- `get_workspace_id` (lines 38-45).  Besides the Python result
(`Except` models the `ValueError`) and the updated state, the third
component records whether this call issued a workspace-listing request
to the service. -/
def get_workspace_id (st : ClientState) (svc : List Workspace) (name : String) :
    Except String String × ClientState × Bool :=
  let listed := cacheFalsy st
  let st1 := if listed then (list_workspaces svc).1 else st
  match dictGet (st1.cache.getD []) name with
  | some ws => (Except.ok ws.id, st1, listed)
  | Option.none =>
    (Except.error ("Workspace \x27" ++ name ++ "\x27 not found"), st1, listed)

/-- A sequence of `get_workspace_id` calls against a fixed service
listing; returns the final client state and how many workspace-listing
requests the sequence issued. -/
def resolveSeq (st : ClientState) (svc : List Workspace) : List String → ClientState × Nat
  | [] => (st, 0)
  | n :: ns =>
    let r := get_workspace_id st svc n
    let rest := resolveSeq r.2.1 svc ns
    (rest.1, (if r.2.2 then 1 else 0) + rest.2)

/-- A dataset entry of a workspace's dataset listing. -/
structure Dataset where
  name : String
  id : String
deriving DecidableEq, Repr

/-- `get_dataset_id` (lines 62-68), parameterised by the workspace's
dataset listing: `df[df["name"] == dataset_name]` keeps the rows in
listing order and `match.iloc[0]["id"]` takes the first of them. -/
def get_dataset_id (workspace_name : String) (datasets : List Dataset) (name : String) :
    Except String String :=
  match datasets.filter (fun d => d.name = name) with
  | [] =>
    Except.error ("Dataset \x27" ++ name ++ "\x27 not found in workspace \x27"
      ++ workspace_name ++ "\x27")
  | d :: _ => Except.ok d.id

/-- A result row: an ordered record of column label to value. -/
abbrev Row : Type := List (String × PyVal)

/-- A tabular query result (the rows of a pandas DataFrame). -/
abbrev Frame : Type := List Row

/-- One table object of the `executeQueries` response envelope;
`rows` is absent when the service omitted the key (`.get("rows", [])`). -/
structure DaxTable where
  rows : Option Frame
deriving DecidableEq, Repr

/-- One per-query result object of the envelope; `tables` absent when
the key is omitted (`.get("tables", [])`). -/
structure DaxResult where
  tables : Option (List DaxTable)
deriving DecidableEq, Repr

/-- The HTTP response to `executeQueries`: status code, the optional
`results` array, the optional message of the body error object (the
two chained gets with defaults collapse into one optional field), and
the raw body text. -/
structure DaxResponse where
  status : Nat
  results : Option (List DaxResult)
  errorMessage : Option String
  text : String
deriving DecidableEq, Repr

/-- `execute_dax` response handling (lines 83-92 of
`powerbi_client.py`), parameterised by the service response.  Non-200:
raise `RuntimeError` with the error message (or the body text).  200:
the first element of the results array, where an absent array defaults
to a one-element list of an empty object, but a present empty array
raises `IndexError`; then the
first entry's `tables`, first table's `rows` (empty frame when no
tables). -/
def execute_dax (r : DaxResponse) : Except String Frame :=
  if r.status ≠ 200 then
    Except.error ("DAX query failed: " ++ r.errorMessage.getD r.text)
  else
    match r.results.getD [⟨Option.none⟩] with
    | [] => Except.error "IndexError: list index out of range"
    | q :: _ =>
      match q.tables.getD [] with
      | [] => Except.ok []
      | t :: _ => Except.ok (t.rows.getD [])

/-- The MCP tool `execute_dax_query` (`mcp.py` lines 83-92): calls
`client.execute_dax` and converts the frame with
`df.to_dict(orient="records")` (identity on our row representation).
There is no handler: an inner exception propagates out of the tool. -/
def execute_dax_query (r : DaxResponse) : Except String Frame :=
  match execute_dax r with
  | Except.ok df => Except.ok df
  | Except.error e => Except.error e

/-- `df.to_string(index=False)`, modelled as a concrete serialization of
the rows; the claims depend only on it being some string. -/
def frameToString (df : Frame) : String :=
  String.intercalate "\n" (df.map (fun row => String.intercalate " " (row.map (fun kv => kv.2.pyStr))))

/-- The agent tool `execute_dax` of `api.py` (lines 97-111): wraps the
client call in try/except, returning a descriptive string on success,
on emptiness, and on any inner exception — it never lets the exception
escape. -/
def api_execute_dax (r : DaxResponse) : Except String String :=
  match execute_dax r with
  | Except.error e => Except.ok ("Error executing DAX: " ++ e)
  | Except.ok df =>
    Except.ok (if df.isEmpty then "Query returned no results." else frameToString df)

/-- The table names of tables containing a column named `k`, in
first-seen order: the "distinct tables" of the relationship claims. -/
def containing (ts : List Table) (k : PyVal) : List PyVal :=
  (ts.filter (fun t => t.columns.any (fun c => c.name = k))).map Table.name

/-- One step of folding the flattened (column name, table name) pairs
through the `key_columns` accumulation. -/
def kfStep (m : List (PyVal × List PyVal)) (p : PyVal × PyVal) : List (PyVal × List PyVal) :=
  if isKeyName p.1 then addKey m p.1 p.2 else m

/-- The (column name, table name) pairs scanned by the nested loops of
lines 187-193, flattened in loop order. -/
def keyPairs (tables : List Table) : List (PyVal × PyVal) :=
  (tables.map (fun t => t.columns.map (fun c => (c.name, t.name)))).flatten

/-- First-match lookup in the `key_columns` association list. -/
def mget : List (PyVal × List PyVal) → PyVal → Option (List PyVal)
  | [], _ => Option.none
  | (k0, v0) :: rest, k => if k0 = k then some v0 else mget rest k

/-- The table-name occurrence list recorded for key `k` among pairs. -/
def occsP (ps : List (PyVal × PyVal)) (k : PyVal) : List PyVal :=
  (ps.filter (fun p => p.1 = k)).map Prod.snd

/-! ## Theorems -/

/-- C9: schema inference is deterministic — two invocations of the
inference on identical raw statistics input (including identical row
order) and identical dataset name produce byte-identical rendered
context strings.  The embedding of `describe_dataset` is a pure
function of its inputs, so equal inputs give equal output strings. -/
theorem C9_render_deterministic (name dsid : String) (rows rows2 : List StatRow)
    (h : rows = rows2) :
    (describe_dataset name dsid rows).llm_context
      = (describe_dataset name dsid rows2).llm_context := by
  rw [h]

/-- Witness for C9 at a concrete input. -/
theorem C9_witness :
    (describe_dataset "Sales" "id1"
        [⟨PyVal.str "T", PyVal.str "a", PyVal.num 1, PyVal.num 2, PyVal.num 2⟩]).llm_context
      = (describe_dataset "Sales" "id1"
        [⟨PyVal.str "T", PyVal.str "a", PyVal.num 1, PyVal.num 2, PyVal.num 2⟩]).llm_context :=
  C9_render_deterministic "Sales" "id1" _ _ rfl

/-- C1 counterexample: a column whose minimum value is the number `0`
and whose maximum is `9` — both present (non-null) — renders the
sample-range cell as "N/A", because line 221 tests Python truthiness
(`if min_v and max_v`), not presence.  The claim predicts "0 to 9". -/
theorem C1_counterexample :
    PyVal.num 0 ≠ PyVal.null ∧ PyVal.num 9 ≠ PyVal.null
      ∧ sampleRange (PyVal.num 0) (PyVal.num 9) = "N/A"
      ∧ renderColLine ⟨PyVal.str "Amount", "Number", PyVal.num 0, PyVal.num 9, PyVal.num 4⟩
          = "| Amount | Number | 4 | N/A |" := by
  refine ⟨by decide, by decide, rfl, rfl⟩

/-- C1 (amended): the sample-range cell equals "min to max" exactly when
both the minimum and the maximum value are *truthy* in Python's sense;
otherwise — including present but falsy values such as `0` or the empty
string — it equals "N/A".  Each rendered column line embeds this cell. -/
theorem C1_sample_range (minV maxV : PyVal) :
    (minV.truthy = true → maxV.truthy = true →
      sampleRange minV maxV = minV.pyStr ++ " to " ++ maxV.pyStr)
    ∧ ((minV.truthy = true ∧ maxV.truthy = true → False) →
      sampleRange minV maxV = "N/A")
    ∧ (∀ c : Column, renderColLine c =
        "| " ++ c.name.pyStr ++ " | " ++ c.dataType ++ " | " ++ c.cardinality.pyStr
          ++ " | " ++ sampleRange c.minValue c.maxValue ++ " |") := by
  refine ⟨fun h1 h2 => ?_, fun h => ?_, fun c => rfl⟩
  · simp [sampleRange, h1, h2]
  · have : (minV.truthy && maxV.truthy) = false := by
      cases h1 : minV.truthy <;> cases h2 : maxV.truthy <;> simp_all
    simp [sampleRange, this]

/-- Witness for C1 (amended) at concrete inputs. -/
theorem C1_witness :
    sampleRange (PyVal.num 7) (PyVal.num 9) = "7 to 9"
      ∧ sampleRange (PyVal.str "") (PyVal.num 9) = "N/A" :=
  ⟨(C1_sample_range (PyVal.num 7) (PyVal.num 9)).1 (by decide) (by decide),
   (C1_sample_range (PyVal.str "") (PyVal.num 9)).2.1 (by decide)⟩

/-- C3 counterexample: the MCP tool `execute_dax_query` (`mcp.py`,
lines 83-92) has no exception handler, so a query-execution failure
raised by the inner client layer propagates across the tool boundary
instead of being returned as a descriptive string result. -/
theorem C3_counterexample :
    execute_dax_query ⟨500, Option.none, some "boom", "body"⟩
      = Except.error "DAX query failed: boom" := by
  rfl

/-- C3 (amended): the agent tool surface in `api.py` catches every inner
error and returns a caller-facing string (its `execute_dax` tool never
produces an exception), while the MCP tool surface in `mcp.py`
propagates inner exceptions unchanged across the tool boundary. -/
theorem C3_tool_boundary :
    (∀ r : DaxResponse, ∃ s : String, api_execute_dax r = Except.ok s)
    ∧ (∀ (r : DaxResponse) (e : String),
        execute_dax r = Except.error e → execute_dax_query r = Except.error e) := by
  constructor
  · intro r
    unfold api_execute_dax
    cases h : execute_dax r with
    | ok df => exact ⟨_, rfl⟩
    | error e => exact ⟨_, rfl⟩
  · intro r e h
    unfold execute_dax_query
    rw [h]

/-- Witness for C3 (amended) at a concrete failing response. -/
theorem C3_witness :
    execute_dax_query ⟨404, Option.none, Option.none, "nf"⟩
        = Except.error "DAX query failed: nf"
      ∧ ∃ s : String, api_execute_dax ⟨404, Option.none, Option.none, "nf"⟩ = Except.ok s :=
  ⟨C3_tool_boundary.2 _ _ (by rfl), C3_tool_boundary.1 _⟩

/-- C8 counterexample: a 200-status response whose `results` array is
present but empty contains no result tables, yet `execute_dax` raises an
IndexError (indexing the first element of an empty results array)
instead of returning an empty row sequence. -/
theorem C8_counterexample :
    execute_dax ⟨200, some [], Option.none, ""⟩
      = Except.error "IndexError: list index out of range" := by
  rfl

/-- C8 (amended): for every 200-status response whose `results` array is
absent (defaulted) or nonempty: when the first query result carries no
tables the call returns an empty row sequence rather than raising, and
when tables are present it returns the rows of the first query's first
table.  A present-but-empty `results` array instead raises IndexError
(see the counterexample). -/
theorem C8_empty_tables (r : DaxResponse) (h200 : r.status = 200)
    (q : DaxResult) (qs : List DaxResult)
    (hres : r.results.getD [⟨Option.none⟩] = q :: qs) :
    (q.tables.getD [] = [] → execute_dax r = Except.ok [])
    ∧ (∀ (t : DaxTable) (ts : List DaxTable),
        q.tables.getD [] = t :: ts → execute_dax r = Except.ok (t.rows.getD [])) := by
  constructor
  · intro ht
    simp [execute_dax, h200, hres, ht]
  · intro t ts ht
    simp [execute_dax, h200, hres, ht]

/-- Witness for C8 (amended) at concrete responses. -/
theorem C8_witness :
    execute_dax ⟨200, some [⟨some []⟩], Option.none, ""⟩ = Except.ok []
      ∧ execute_dax ⟨200, some [⟨some [⟨some [[("a", PyVal.num 1)]]⟩]⟩], Option.none, ""⟩
          = Except.ok [[("a", PyVal.num 1)]] :=
  ⟨(C8_empty_tables ⟨200, some [⟨some []⟩], Option.none, ""⟩ rfl ⟨some []⟩ [] rfl).1 rfl,
   (C8_empty_tables ⟨200, some [⟨some [⟨some [[("a", PyVal.num 1)]]⟩]⟩], Option.none, ""⟩ rfl
      ⟨some [⟨some [[("a", PyVal.num 1)]]⟩]⟩ [] rfl).2
      ⟨some [[("a", PyVal.num 1)]]⟩ [] rfl⟩

/-- A value containing a nonempty substring is a nonempty string, hence
truthy: the truthiness guards on lines 149 and 151 cannot rescue a row
whose name contains a marker substring. -/
theorem truthy_of_hasSub (v : PyVal) (sub : String) (hs : sub.toList ≠ [])
    (h : v.hasSub sub = true) : v.truthy = true := by
  cases v with
  | str s =>
    cases hl : s.toList with
    | nil =>
      rw [PyVal.hasSub, hl] at h
      cases hsub : sub.toList with
      | nil => exact absurd hsub hs
      | cons c cs => rw [hsub] at h; simp [charsSub] at h
    | cons c cs =>
      have hd : s.data = c :: cs := hl
      simp [PyVal.truthy, List.isEmpty_iff, hd]
  | null => simp [PyVal.hasSub] at h
  | num n => simp [PyVal.hasSub] at h
  | bool b => simp [PyVal.hasSub] at h

/-- A row carrying one of the reserved marker substrings is skipped by
the row loop: folding it changes nothing. -/
theorem buildStep_drop (r : StatRow)
    (h : r.tableName.hasSub "DateTableTemplate" = true
      ∨ r.tableName.hasSub "LocalDateTable" = true
      ∨ r.colName.hasSub "RowNumber-" = true) :
    ∀ acc : List Table, buildStep acc r = acc := by
  intro acc
  unfold buildStep
  rcases h with h | h | h
  · rw [if_pos]
    rw [truthy_of_hasSub _ _ (by decide) h, h]
    simp
  · rw [if_pos]
    rw [truthy_of_hasSub _ _ (by decide) h, h]
    simp
  · by_cases hb : (r.tableName.truthy
        && (r.tableName.hasSub "DateTableTemplate" || r.tableName.hasSub "LocalDateTable")) = true
    · rw [if_pos hb]
    · rw [if_neg hb, if_pos]
      rw [truthy_of_hasSub _ _ (by decide) h, h]
      simp

/-- C6: a raw statistics row whose table name contains one of the two
date-hierarchy marker substrings, or whose column name contains the
internal row-number marker substring, contributes nothing to the
inferred table list: removing it from the input leaves `buildTables`
unchanged, whatever its other fields and whatever surrounds it. -/
theorem C6_marker_rows_dropped (pre post : List StatRow) (r : StatRow)
    (h : r.tableName.hasSub "DateTableTemplate" = true
      ∨ r.tableName.hasSub "LocalDateTable" = true
      ∨ r.colName.hasSub "RowNumber-" = true) :
    buildTables (pre ++ r :: post) = buildTables (pre ++ post) := by
  unfold buildTables
  rw [List.foldl_append, List.foldl_append, List.foldl_cons, buildStep_drop r h]

/-- Witness for C6 at a concrete auto-generated date-table row. -/
theorem C6_witness :
    buildTables
        ([⟨PyVal.str "T", PyVal.str "a", PyVal.num 1, PyVal.num 2, PyVal.num 2⟩]
          ++ ⟨PyVal.str "LocalDateTable_4f2a", PyVal.str "Month", PyVal.num 1, PyVal.num 12, PyVal.num 12⟩
          :: [])
      = buildTables ([⟨PyVal.str "T", PyVal.str "a", PyVal.num 1, PyVal.num 2, PyVal.num 2⟩] ++ []) :=
  C6_marker_rows_dropped _ _ _ (Or.inr (Or.inl (by decide)))

/-- A resolution call against a nonempty cache reuses it: the state is
unchanged and no workspace-listing request is issued. -/
theorem get_workspace_id_cached (st : ClientState) (svc : List Workspace) (name : String)
    (m : List (String × Workspace)) (hst : st.cache = some m) (hm : m ≠ []) :
    (get_workspace_id st svc name).2.1 = st ∧ (get_workspace_id st svc name).2.2 = false := by
  have hf : cacheFalsy st = false := by
    rw [cacheFalsy, hst]
    simpa [List.isEmpty_iff] using hm
  simp only [get_workspace_id, hf, Bool.false_eq_true, if_false]
  cases hd : dictGet (st.cache.getD []) name <;> simp [hd]

/-- C7 counterexample: when the first (successful) listing returns zero
workspaces, the populated cache is an empty dict, which is falsy — so
the very next resolution issues another workspace-listing request.  The
first call below lists (flag `true`) and populates the cache with the
empty listing; the second call lists again. -/
theorem C7_counterexample :
    (get_workspace_id ⟨Option.none⟩ [] "X").2.2 = true
      ∧ (get_workspace_id ⟨Option.none⟩ [] "X").2.1.cache = some []
      ∧ (get_workspace_id (get_workspace_id ⟨Option.none⟩ [] "X").2.1 [] "X").2.2 = true := by
  refine ⟨rfl, rfl, rfl⟩

/-- C7 (amended): once the cache has been populated by a listing that
returned at least one workspace, every subsequent sequence of
resolution calls reuses the cache, leaves the state unchanged, and
issues zero further workspace-listing requests.  When the listing
returned zero workspaces the cache is an empty dict, which the
truthiness test treats as unpopulated, and every subsequent resolution
re-issues the listing (see the counterexample). -/
theorem C7_cache_reuse (st : ClientState) (svc : List Workspace) (names : List String)
    (m : List (String × Workspace)) (hst : st.cache = some m) (hm : m ≠ []) :
    resolveSeq st svc names = (st, 0) := by
  induction names with
  | nil => rfl
  | cons n ns ih =>
    have h := get_workspace_id_cached st svc n m hst hm
    simp [resolveSeq, h.1, h.2, ih]

/-- Witness for C7 (amended): three resolutions against a one-entry
cache issue no listing request. -/
theorem C7_witness :
    resolveSeq ⟨some [("A", ⟨"A", "1", false⟩)]⟩ [] ["A", "B", "A"]
      = (⟨some [("A", ⟨"A", "1", false⟩)]⟩, 0) :=
  C7_cache_reuse _ _ _ [("A", ⟨"A", "1", false⟩)] rfl (by decide)

/-- Lookup after a dict assignment: the assigned key maps to the new
value, every other key is untouched. -/
theorem dictGet_dictPut (m : List (String × Workspace)) (k : String) (v : Workspace)
    (k2 : String) :
    dictGet (dictPut m k v) k2 = if k = k2 then some v else dictGet m k2 := by
  induction m with
  | nil =>
    by_cases h : k = k2 <;> simp [dictPut, dictGet, h]
  | cons p rest ih =>
    obtain ⟨k0, v0⟩ := p
    by_cases h0 : k0 = k
    · subst h0
      by_cases h2 : k0 = k2 <;> simp [dictPut, dictGet, h2]
    · by_cases h2 : k0 = k2
      · subst h2
        have : ¬k = k0 := fun he => h0 he.symm
        simp [dictPut, dictGet, h0, this]
      · simp [dictPut, dictGet, h0, h2, ih]

/-- The workspace cache built by the dict comprehension resolves a name
to the LAST workspace bearing it in the listing (later assignments
overwrite earlier ones); absent names resolve through the accumulator. -/
theorem dictGet_wsDict_fold (svc : List Workspace) (m : List (String × Workspace)) (k : String) :
    dictGet (svc.foldl (fun acc w => dictPut acc w.name w) m) k
      = ((svc.filter (fun w => w.name = k)).getLast?).elim (dictGet m k) some := by
  induction svc generalizing m with
  | nil => simp
  | cons w ws ih =>
    rw [List.foldl_cons, ih, List.filter_cons]
    by_cases hw : w.name = k
    · rw [if_pos (by simp [hw]), List.getLast?_cons]
      cases hlast : (ws.filter (fun x => x.name = k)).getLast? with
      | none => simp [hlast, dictGet_dictPut, hw]
      | some x => simp [hlast]
    · rw [if_neg (by simp [hw])]
      cases hlast : (ws.filter (fun x => x.name = k)).getLast? with
      | none => simp [hlast, dictGet_dictPut, hw]
      | some x => simp [hlast]

/-- C10: duplicate-name resolution is asymmetric.  A fresh client
resolving a workspace name returns the id of the LAST-listed workspace
bearing it (the cache comprehension lets later entries overwrite earlier
ones), while dataset resolution returns the id of the FIRST-listed
dataset bearing the name (`match.iloc[0]`). -/
theorem C10_duplicate_names :
    (∀ (svc : List Workspace) (name : String) (w : Workspace),
      (svc.filter (fun x => x.name = name)).getLast? = some w →
      (get_workspace_id ⟨Option.none⟩ svc name).1 = Except.ok w.id)
    ∧ (∀ (wsn : String) (ds : List Dataset) (name : String) (d : Dataset),
      (ds.filter (fun x => x.name = name)).head? = some d →
      get_dataset_id wsn ds name = Except.ok d.id) := by
  constructor
  · intro svc name w h
    have hget : dictGet (wsDict svc) name = some w := by
      rw [wsDict, dictGet_wsDict_fold, h]
      rfl
    simp [get_workspace_id, cacheFalsy, list_workspaces, hget]
  · intro wsn ds name d h
    cases hf : ds.filter (fun x => x.name = name) with
    | nil => rw [hf] at h; simp at h
    | cons d0 rest =>
      rw [hf] at h
      simp at h
      rw [get_dataset_id, hf, h]

/-- Witness for C10: two workspaces named "A" resolve to the second id,
two datasets named "D" resolve to the first id. -/
theorem C10_witness :
    (get_workspace_id ⟨Option.none⟩ [⟨"A", "1", false⟩, ⟨"A", "2", false⟩] "A").1
        = Except.ok "2"
      ∧ get_dataset_id "W" [⟨"D", "1"⟩, ⟨"D", "2"⟩] "D" = Except.ok "1" :=
  ⟨C10_duplicate_names.1 [⟨"A", "1", false⟩, ⟨"A", "2", false⟩] "A" ⟨"A", "2", false⟩ (by decide),
   C10_duplicate_names.2 "W" [⟨"D", "1"⟩, ⟨"D", "2"⟩] "D" ⟨"D", "1"⟩ (by decide)⟩

/-- `addColumn` preserves the invariant that every stored column's
`dataType` is the one inferred from its own minimum value. -/
theorem addColumn_dataType (tn : PyVal) (c : Column)
    (hc : c.dataType = inferDataType c.minValue) :
    ∀ ts : List Table,
      (∀ t ∈ ts, ∀ c0 ∈ t.columns, c0.dataType = inferDataType c0.minValue) →
      ∀ t ∈ addColumn ts tn c, ∀ c0 ∈ t.columns, c0.dataType = inferDataType c0.minValue := by
  intro ts
  induction ts with
  | nil =>
    intro hts t ht c0 hc0
    simp [addColumn] at ht
    subst ht
    simp at hc0
    subst hc0
    exact hc
  | cons t0 rest ih =>
    intro hts t ht c0 hc0
    rw [addColumn] at ht
    by_cases he : t0.name = tn
    · rw [if_pos he] at ht
      rcases List.mem_cons.1 ht with h1 | h1
      · subst h1
        rcases List.mem_append.1 hc0 with h2 | h2
        · exact hts t0 (List.mem_cons_self _ _) c0 h2
        · simp at h2
          subst h2
          exact hc
      · exact hts t (List.mem_cons_of_mem _ h1) c0 hc0
    · rw [if_neg he] at ht
      rcases List.mem_cons.1 ht with h1 | h1
      · subst h1
        exact hts t (List.mem_cons_self _ _) c0 hc0
      · exact ih (fun t2 ht2 => hts t2 (List.mem_cons_of_mem _ ht2)) t h1 c0 hc0

/-- The row loop preserves the dataType invariant. -/
theorem buildStep_dataType (acc : List Table) (r : StatRow)
    (h : ∀ t ∈ acc, ∀ c0 ∈ t.columns, c0.dataType = inferDataType c0.minValue) :
    ∀ t ∈ buildStep acc r, ∀ c0 ∈ t.columns, c0.dataType = inferDataType c0.minValue := by
  unfold buildStep
  split
  · exact h
  · split
    · exact h
    · exact addColumn_dataType r.tableName (mkColumn r) rfl acc h

/-- Every column of every inferred table carries the dataType computed
from its own minimum value. -/
theorem buildTables_dataType (rows : List StatRow) :
    ∀ t ∈ buildTables rows, ∀ c0 ∈ t.columns, c0.dataType = inferDataType c0.minValue := by
  have key : ∀ (rs : List StatRow) (acc : List Table),
      (∀ t ∈ acc, ∀ c0 ∈ t.columns, c0.dataType = inferDataType c0.minValue) →
      ∀ t ∈ rs.foldl buildStep acc, ∀ c0 ∈ t.columns, c0.dataType = inferDataType c0.minValue := by
    intro rs
    induction rs with
    | nil => intro acc h; simpa using h
    | cons r rs2 ih =>
      intro acc h
      rw [List.foldl_cons]
      exact ih _ (buildStep_dataType acc r h)
  exact key rows [] (by simp)

/-- C4: the inferred dataType of every column-statistics row is Unknown
for a null minimum, Number for a numeric minimum, and for a textual
minimum DateTime exactly when the string contains one of `-` `/` `:`
and has length at least 8, else Text. -/
theorem C4_type_inference (rows : List StatRow) (t : Table) (c : Column)
    (ht : t ∈ buildTables rows) (hc : c ∈ t.columns) :
    (c.minValue = PyVal.null → c.dataType = "Unknown")
    ∧ (∀ n : Int, c.minValue = PyVal.num n → c.dataType = "Number")
    ∧ (∀ s : String, c.minValue = PyVal.str s →
        c.dataType =
          if (s.toList.contains '-' = true ∨ s.toList.contains '/' = true
                ∨ s.toList.contains ':' = true) ∧ 8 ≤ s.toList.length
          then "DateTime" else "Text") := by
  have hdt := buildTables_dataType rows t ht c hc
  refine ⟨fun h => ?_, fun n h => ?_, fun s h => ?_⟩
  · rw [hdt, h]; rfl
  · rw [hdt, h]; rfl
  · rw [hdt, h]
    simp only [inferDataType]
    by_cases hp : (s.toList.contains '-' = true ∨ s.toList.contains '/' = true
        ∨ s.toList.contains ':' = true) ∧ 8 ≤ s.toList.length
    · rw [if_pos hp]
      have hb : ((s.toList.contains '-' || s.toList.contains '/' || s.toList.contains ':')
          && decide (8 ≤ s.toList.length)) = true := by
        simp only [Bool.and_eq_true, Bool.or_eq_true, decide_eq_true_eq]
        exact ⟨by tauto, hp.2⟩
      rw [hb]
      rfl
    · rw [if_neg hp]
      have hb : ((s.toList.contains '-' || s.toList.contains '/' || s.toList.contains ':')
          && decide (8 ≤ s.toList.length)) = false := by
        refine Bool.eq_false_iff.mpr (fun hbt => ?_)
        simp only [Bool.and_eq_true, Bool.or_eq_true, decide_eq_true_eq] at hbt
        exact hp ⟨by tauto, hbt.2⟩
      rw [hb]
      rfl

/-- Witness for C4: "2024-01-15" (10 chars, contains a dash) infers
DateTime through the full pipeline. -/
theorem C4_witness :
    (Column.mk (PyVal.str "D") (inferDataType (PyVal.str "2024-01-15"))
        (PyVal.str "2024-01-15") PyVal.null PyVal.null).dataType = "DateTime" := by
  have h := C4_type_inference
    [⟨PyVal.str "T", PyVal.str "D", PyVal.str "2024-01-15", PyVal.null, PyVal.null⟩]
    ⟨PyVal.str "T",
      [⟨PyVal.str "D", inferDataType (PyVal.str "2024-01-15"),
        PyVal.str "2024-01-15", PyVal.null, PyVal.null⟩]⟩
    ⟨PyVal.str "D", inferDataType (PyVal.str "2024-01-15"),
      PyVal.str "2024-01-15", PyVal.null, PyVal.null⟩
    (by decide) (by decide)
  rw [h.2.2 "2024-01-15" rfl]
  decide

/-- The nested loops building `key_columns` are the fold of `kfStep`
over the flattened (column name, table name) pairs. -/
theorem keyColumns_eq_fold (ts : List Table) :
    keyColumns ts = (keyPairs ts).foldl kfStep [] := by
  suffices h : ∀ m : List (PyVal × List PyVal),
      ts.foldl (fun m t => t.columns.foldl
        (fun m2 c => if isKeyName c.name then addKey m2 c.name t.name else m2) m) m
        = (keyPairs ts).foldl kfStep m from h []
  induction ts with
  | nil => intro m; simp [keyPairs]
  | cons t rest ih =>
    intro m
    have hkp : keyPairs (t :: rest)
        = (t.columns.map (fun c => (c.name, t.name))) ++ keyPairs rest := by
      simp [keyPairs]
    rw [List.foldl_cons, ih, hkp, List.foldl_append, List.foldl_map]
    rfl

/-- Looking up the appended key after `addKey` finds the extended list. -/
theorem mget_addKey_self (m : List (PyVal × List PyVal)) (k t : PyVal) :
    mget (addKey m k t) k = some ((mget m k).getD [] ++ [t]) := by
  induction m with
  | nil => simp [addKey, mget]
  | cons p rest ih =>
    obtain ⟨k0, v0⟩ := p
    by_cases h : k0 = k
    · subst h
      simp [addKey, mget]
    · simp [addKey, mget, h, ih]

/-- `addKey` leaves every other key's lookup unchanged. -/
theorem mget_addKey_ne (m : List (PyVal × List PyVal)) (k t k2 : PyVal) (h : k2 ≠ k) :
    mget (addKey m k t) k2 = mget m k2 := by
  induction m with
  | nil =>
    have : ¬(k = k2) := fun he => h he.symm
    simp [addKey, mget, this]
  | cons p rest ih =>
    obtain ⟨k0, v0⟩ := p
    by_cases h0 : k0 = k
    · subst h0
      have : ¬(k0 = k2) := fun he => h he.symm
      simp [addKey, mget, this]
    · by_cases h2 : k0 = k2 <;> simp [addKey, mget, h0, h2, h, ih]

/-- The key list after `addKey`: unchanged when the key exists, else the
key is appended at the end. -/
theorem keys_addKey (m : List (PyVal × List PyVal)) (k t : PyVal) :
    (addKey m k t).map Prod.fst
      = if k ∈ m.map Prod.fst then m.map Prod.fst else m.map Prod.fst ++ [k] := by
  induction m with
  | nil => simp [addKey]
  | cons p rest ih =>
    obtain ⟨k0, v0⟩ := p
    by_cases h : k0 = k
    · subst h
      simp [addKey]
    · have hne : ¬(k = k0) := fun he => h he.symm
      by_cases h2 : k ∈ rest.map Prod.fst <;>
        simp [addKey, h, h2, ih, hne]

/-- `addKey` preserves distinctness of the stored keys. -/
theorem nodup_keys_addKey (m : List (PyVal × List PyVal)) (k t : PyVal)
    (h : (m.map Prod.fst).Nodup) : ((addKey m k t).map Prod.fst).Nodup := by
  rw [keys_addKey]
  by_cases hk : k ∈ m.map Prod.fst
  · rwa [if_pos hk]
  · rw [if_neg hk]
    simp [List.nodup_append, h, hk]

/-- `addKey` preserves any property of the stored keys (plus
nonemptiness of values) as long as the new key satisfies it. -/
theorem ents_addKey (P : PyVal → Prop) (m : List (PyVal × List PyVal)) (k t : PyVal)
    (hm : ∀ q ∈ m, P q.1 ∧ q.2 ≠ []) (hk : P k) :
    ∀ q ∈ addKey m k t, P q.1 ∧ q.2 ≠ [] := by
  induction m with
  | nil =>
    intro q hq
    simp [addKey] at hq
    subst hq
    exact ⟨hk, by simp⟩
  | cons p rest ih =>
    obtain ⟨k0, v0⟩ := p
    intro q hq
    by_cases h : k0 = k
    · subst h
      rw [addKey] at hq
      simp only [if_pos rfl] at hq
      rcases List.mem_cons.1 hq with h1 | h1
      · subst h1
        exact ⟨(hm (k0, v0) (List.mem_cons_self _ _)).1, by simp⟩
      · exact hm q (List.mem_cons_of_mem _ h1)
    · rw [addKey] at hq
      simp only [if_neg h] at hq
      rcases List.mem_cons.1 hq with h1 | h1
      · subst h1
        exact hm (k0, v0) (List.mem_cons_self _ _)
      · exact ih (fun q2 hq2 => hm q2 (List.mem_cons_of_mem _ hq2)) q h1

/-- Folding the pairs never creates entries for non-key names. -/
theorem mget_fold_not_key (ps : List (PyVal × PyVal)) (k : PyVal) (hk : isKeyName k = false) :
    ∀ m, mget (ps.foldl kfStep m) k = mget m k := by
  induction ps with
  | nil => intro m; rfl
  | cons p rest ih =>
    intro m
    rw [List.foldl_cons, ih]
    unfold kfStep
    split
    · rename_i hkey
      refine mget_addKey_ne _ _ _ _ (fun he => ?_)
      rw [← he, hk] at hkey
      cases hkey
    · rfl

/-- Folding the pairs extends an existing entry for a key name by
exactly the table-name occurrences of that key among the pairs. -/
theorem mget_fold_key_some (ps : List (PyVal × PyVal)) (k : PyVal) (hk : isKeyName k = true) :
    ∀ m v, mget m k = some v → mget (ps.foldl kfStep m) k = some (v ++ occsP ps k) := by
  induction ps with
  | nil =>
    intro m v h
    simpa [occsP] using h
  | cons p rest ih =>
    intro m v h
    rw [List.foldl_cons]
    by_cases hp : p.1 = k
    · have hkey : isKeyName p.1 = true := by rw [hp]; exact hk
      have hocc : occsP (p :: rest) k = p.2 :: occsP rest k := by
        simp [occsP, List.filter_cons, hp]
      have h2 : mget (kfStep m p) k = some (v ++ [p.2]) := by
        simp only [kfStep, if_pos hkey]
        rw [hp, mget_addKey_self, h]
        rfl
      rw [ih _ _ h2, hocc]
      simp
    · have hocc : occsP (p :: rest) k = occsP rest k := by
        simp [occsP, List.filter_cons, hp]
      rw [hocc]
      unfold kfStep
      split
      · have h2 : mget (addKey m p.1 p.2) k = some v := by
          rw [mget_addKey_ne _ _ _ _ (fun he => hp he.symm)]
          exact h
        exact ih _ _ h2
      · exact ih _ _ h

/-- Folding the pairs over an accumulator lacking the key produces no
entry when the key never occurs, and otherwise exactly the occurrence
list. -/
theorem mget_fold_key_none (ps : List (PyVal × PyVal)) (k : PyVal) (hk : isKeyName k = true) :
    ∀ m, mget m k = Option.none →
      mget (ps.foldl kfStep m) k
        = if occsP ps k = [] then Option.none else some (occsP ps k) := by
  induction ps with
  | nil =>
    intro m h
    simp [occsP, h]
  | cons p rest ih =>
    intro m h
    rw [List.foldl_cons]
    by_cases hp : p.1 = k
    · have hkey : isKeyName p.1 = true := by rw [hp]; exact hk
      have hocc : occsP (p :: rest) k = p.2 :: occsP rest k := by
        simp [occsP, List.filter_cons, hp]
      have h2 : mget (kfStep m p) k = some [p.2] := by
        simp only [kfStep, if_pos hkey]
        rw [hp, mget_addKey_self, h]
        rfl
      rw [mget_fold_key_some rest k hk _ _ h2, hocc]
      simp
    · have hocc : occsP (p :: rest) k = occsP rest k := by
        simp [occsP, List.filter_cons, hp]
      rw [hocc]
      unfold kfStep
      split
      · have h2 : mget (addKey m p.1 p.2) k = Option.none := by
          rw [mget_addKey_ne _ _ _ _ (fun he => hp he.symm)]
          exact h
        exact ih _ h2
      · exact ih _ h

/-- The fold keeps the stored keys distinct. -/
theorem keys_fold_nodup (ps : List (PyVal × PyVal)) :
    ∀ m, (m.map Prod.fst).Nodup → (((ps.foldl kfStep m).map Prod.fst)).Nodup := by
  induction ps with
  | nil => intro m h; simpa using h
  | cons p rest ih =>
    intro m h
    rw [List.foldl_cons]
    refine ih _ ?_
    unfold kfStep
    split
    · exact nodup_keys_addKey m p.1 p.2 h
    · exact h

/-- Every entry the fold stores has a key-shaped name and a nonempty
table list. -/
theorem ents_fold (ps : List (PyVal × PyVal)) :
    ∀ m, (∀ q ∈ m, isKeyName q.1 = true ∧ q.2 ≠ []) →
      ∀ q ∈ ps.foldl kfStep m, isKeyName q.1 = true ∧ q.2 ≠ [] := by
  induction ps with
  | nil => intro m h; simpa using h
  | cons p rest ih =>
    intro m h
    rw [List.foldl_cons]
    refine ih _ ?_
    unfold kfStep
    split
    · rename_i hkey
      exact ents_addKey (fun x => isKeyName x = true) m p.1 p.2 h hkey
    · exact h

/-- With distinct keys, membership determines the lookup. -/
theorem mget_of_mem_nodup (m : List (PyVal × List PyVal))
    (hm : (m.map Prod.fst).Nodup) (k : PyVal) (v : List PyVal)
    (h : (k, v) ∈ m) : mget m k = some v := by
  induction m with
  | nil => simp at h
  | cons p rest ih =>
    obtain ⟨k0, v0⟩ := p
    rw [List.map_cons] at hm
    rcases List.mem_cons.1 h with h1 | h1
    · rw [Prod.mk.injEq] at h1
      obtain ⟨hk, hv⟩ := h1
      subst hk
      subst hv
      simp [mget]
    · have hk0 : ¬(k0 = k) := by
        intro he
        subst he
        exact (List.nodup_cons.1 hm).1 (List.mem_map.2 ⟨(k0, v), h1, rfl⟩)
      simp only [mget, if_neg hk0]
      exact ih ((List.nodup_cons.1 hm).2) h1

/-- An absent key contributes nothing to the key filter. -/
theorem filter_key_of_mget_none (m : List (PyVal × List PyVal)) (k : PyVal)
    (h : mget m k = Option.none) : m.filter (fun p => p.1 = k) = [] := by
  induction m with
  | nil => rfl
  | cons p rest ih =>
    obtain ⟨k0, v0⟩ := p
    by_cases h0 : k0 = k
    · rw [mget, if_pos h0] at h
      cases h
    · rw [mget, if_neg h0] at h
      simp [List.filter_cons, h0, ih h]

/-- With distinct keys, filtering by a present key isolates exactly its
entry. -/
theorem filter_key_of_mget_some (m : List (PyVal × List PyVal)) (k : PyVal) (v : List PyVal)
    (hm : (m.map Prod.fst).Nodup) (h : mget m k = some v) :
    m.filter (fun p => p.1 = k) = [(k, v)] := by
  induction m with
  | nil => cases h
  | cons p rest ih =>
    obtain ⟨k0, v0⟩ := p
    rw [List.map_cons] at hm
    by_cases h0 : k0 = k
    · subst h0
      rw [mget, if_pos rfl] at h
      injection h with hv
      subst hv
      rw [List.filter_cons_of_pos (by simp)]
      have hrest : rest.filter (fun p => p.1 = k0) = [] := by
        rw [List.filter_eq_nil_iff]
        intro q hq hq1
        apply (List.nodup_cons.1 hm).1
        have hqk : q.1 = k0 := by simpa using hq1
        exact List.mem_map.2 ⟨q, hq, hqk⟩
      rw [hrest]
    · rw [mget, if_neg h0] at h
      rw [List.filter_cons_of_neg (by simpa using h0)]
      exact ih ((List.nodup_cons.1 hm).2) h

/-- With distinct column names, at most one column of a table matches a
given name. -/
theorem nodup_filter_single (l : List Column) (hl : (l.map Column.name).Nodup) (k : PyVal) :
    l.filter (fun c => c.name = k) = []
      ∨ ∃ c, l.filter (fun c => c.name = k) = [c] ∧ c ∈ l ∧ c.name = k := by
  induction l with
  | nil => exact Or.inl rfl
  | cons c cs ih =>
    rw [List.map_cons] at hl
    by_cases hc : c.name = k
    · refine Or.inr ⟨c, ?_, List.mem_cons_self _ _, hc⟩
      rw [List.filter_cons_of_pos (by simp [hc])]
      have hrest : cs.filter (fun c => c.name = k) = [] := by
        rw [List.filter_eq_nil_iff]
        intro a ha hak
        apply (List.nodup_cons.1 hl).1
        have hak2 : a.name = c.name := by
          have : a.name = k := by simpa using hak
          rw [this, hc]
        exact List.mem_map.2 ⟨a, ha, hak2.symm ▸ rfl⟩
      rw [hrest]
    · rw [List.filter_cons_of_neg (by simpa using hc)]
      rcases ih (List.nodup_cons.1 hl).2 with h | ⟨c2, h2, hmem, hname⟩
      · exact Or.inl h
      · exact Or.inr ⟨c2, h2, List.mem_cons_of_mem _ hmem, hname⟩

/-- The occurrence list contributed by one table's column pairs. -/
theorem occsP_map_cols (cols : List Column) (tn : PyVal) (k : PyVal) :
    occsP (cols.map (fun c => (c.name, tn))) k
      = (cols.filter (fun c => c.name = k)).map (fun _ => tn) := by
  induction cols with
  | nil => rfl
  | cons c cs ih =>
    simp only [occsP] at ih ⊢
    rw [List.map_cons, List.filter_cons, List.filter_cons]
    by_cases hc : c.name = k
    · simp [hc, ih]
    · simp [hc, ih]

/-- With distinct column names, a table contributes its name exactly
once when it contains the key, else nothing. -/
theorem occsP_table (t : Table) (k : PyVal) (hl : (t.columns.map Column.name).Nodup) :
    occsP (t.columns.map (fun c => (c.name, t.name))) k
      = if t.columns.any (fun c => c.name = k) then [t.name] else [] := by
  rw [occsP_map_cols]
  rcases nodup_filter_single t.columns hl k with h | ⟨c, hc, hmem, hname⟩
  · rw [h]
    have ha : t.columns.any (fun c => c.name = k) = false := by
      rw [List.any_eq_false]
      intro a hamem
      have := List.filter_eq_nil_iff.1 h a hamem
      simpa using this
    simp [ha]
  · rw [hc]
    have ha : t.columns.any (fun c => c.name = k) = true := by
      rw [List.any_eq_true]
      exact ⟨c, hmem, by simpa using hname⟩
    simp [ha]

/-- With per-table distinct column names, the recorded occurrence list
of a key equals the first-seen-ordered list of distinct tables
containing a column of that name. -/
theorem occsP_keyPairs (ts : List Table) (k : PyVal)
    (hc : ∀ t ∈ ts, (t.columns.map Column.name).Nodup) :
    occsP (keyPairs ts) k = containing ts k := by
  induction ts with
  | nil => rfl
  | cons t rest ih =>
    have hkp : keyPairs (t :: rest)
        = (t.columns.map (fun c => (c.name, t.name))) ++ keyPairs rest := by
      simp [keyPairs]
    have happ : ∀ (l1 l2 : List (PyVal × PyVal)),
        occsP (l1 ++ l2) k = occsP l1 k ++ occsP l2 k := by
      intro l1 l2
      simp [occsP]
    rw [hkp, happ, occsP_table t k (hc t (List.mem_cons_self _ _)),
      ih (fun t2 h2 => hc t2 (List.mem_cons_of_mem _ h2))]
    rw [containing, containing, List.filter_cons]
    by_cases ha : t.columns.any (fun c => c.name = k) = true
    · simp [ha]
    · simp only [Bool.not_eq_true] at ha
      simp [ha]

/-- Filtering the mapped relationship list by key column equals mapping
the key-filtered, length-filtered entries. -/
theorem filter_rel (m : List (PyVal × List PyVal)) (k : PyVal) :
    (((m.filter (fun p => 1 < p.2.length)).map
        (fun p => (⟨p.1, p.2⟩ : Relationship))).filter (fun r => r.keyColumn = k))
      = ((m.filter (fun p => p.1 = k)).filter
          (fun p => 1 < p.2.length)).map (fun p => (⟨p.1, p.2⟩ : Relationship)) := by
  induction m with
  | nil => rfl
  | cons p rest ih =>
    by_cases h1 : 1 < p.2.length <;> by_cases h2 : p.1 = k <;>
      simp [List.filter_cons, h1, h2, ih]

/-- The `key_columns` dict of a table list has distinct keys. -/
theorem keyColumns_nodup (ts : List Table) :
    ((keyColumns ts).map Prod.fst).Nodup := by
  rw [keyColumns_eq_fold]
  exact keys_fold_nodup (keyPairs ts) [] (by simp)

/-- Every entry of the `key_columns` dict has a key-shaped name and a
nonempty table list. -/
theorem keyColumns_ents (ts : List Table) :
    ∀ q ∈ keyColumns ts, isKeyName q.1 = true ∧ q.2 ≠ [] := by
  rw [keyColumns_eq_fold]
  exact ents_fold (keyPairs ts) [] (by simp)

/-- Lookup in the `key_columns` dict of a key-shaped name: absent when
the name never occurs, else exactly its occurrence list. -/
theorem keyColumns_mget (ts : List Table) (k : PyVal) (hk : isKeyName k = true) :
    mget (keyColumns ts) k
      = if occsP (keyPairs ts) k = [] then Option.none
        else some (occsP (keyPairs ts) k) := by
  rw [keyColumns_eq_fold]
  exact mget_fold_key_none (keyPairs ts) k hk [] rfl

/-- Each stored entry's table list is the key's occurrence list. -/
theorem keyColumns_val (ts : List Table) (q : PyVal × List PyVal)
    (hq : q ∈ keyColumns ts) : q.2 = occsP (keyPairs ts) q.1 := by
  obtain ⟨hkey, hne⟩ := keyColumns_ents ts q hq
  have hmget : mget (keyColumns ts) q.1 = some q.2 :=
    mget_of_mem_nodup _ (keyColumns_nodup ts) q.1 q.2 (by simpa using hq)
  rw [keyColumns_mget ts q.1 hkey] at hmget
  by_cases ho : occsP (keyPairs ts) q.1 = []
  · rw [if_pos ho] at hmget
    cases hmget
  · rw [if_neg ho] at hmget
    injection hmget with hv
    exact hv.symm

/-- C5: every column name matching a key-suffix pattern that occurs in
two or more distinct tables (tables with per-table distinct column
names) yields exactly one Relationship entry listing all those tables in
first-seen order; names occurring in at most one table yield none; and
column names matching none of the patterns never produce a
Relationship. -/
theorem C5_key_relationships (ts : List Table)
    (hcols : ∀ t ∈ ts, (t.columns.map Column.name).Nodup) :
    (∀ k : PyVal, isKeyName k = true →
      (relationships ts).filter (fun r => r.keyColumn = k)
        = if 2 ≤ (containing ts k).length then [⟨k, containing ts k⟩] else [])
    ∧ (∀ r ∈ relationships ts, isKeyName r.keyColumn = true) := by
  constructor
  · intro k hk
    rw [relationships, filter_rel]
    have hocc := occsP_keyPairs ts k hcols
    by_cases ho : occsP (keyPairs ts) k = []
    · have hnone : mget (keyColumns ts) k = Option.none := by
        rw [keyColumns_mget ts k hk, if_pos ho]
      rw [filter_key_of_mget_none _ _ hnone]
      rw [← hocc, ho]
      simp
    · have hsome : mget (keyColumns ts) k = some (occsP (keyPairs ts) k) := by
        rw [keyColumns_mget ts k hk, if_neg ho]
      rw [filter_key_of_mget_some _ _ _ (keyColumns_nodup ts) hsome]
      rw [← hocc]
      by_cases hlen : 1 < (occsP (keyPairs ts) k).length
      · rw [List.filter_cons_of_pos (by simpa using hlen), if_pos (by omega)]
        rfl
      · rw [List.filter_cons_of_neg (by simpa using hlen), if_neg (by omega)]
        rfl
  · intro r hr
    rw [relationships] at hr
    rcases List.mem_map.1 hr with ⟨p, hp, hpr⟩
    have hent := (keyColumns_ents ts p (List.mem_filter.1 hp).1).1
    rw [← hpr]
    exact hent

/-- Witness for C5 at a concrete two-table schema sharing the
key-shaped column "Customer_ID". -/
theorem C5_witness :
    (relationships
        [⟨PyVal.str "Customers",
          [⟨PyVal.str "Customer_ID", "Number", PyVal.num 1, PyVal.num 9, PyVal.num 9⟩]⟩,
         ⟨PyVal.str "Orders",
          [⟨PyVal.str "Customer_ID", "Number", PyVal.num 1, PyVal.num 9, PyVal.num 9⟩]⟩]).filter
        (fun r => r.keyColumn = PyVal.str "Customer_ID")
      = [⟨PyVal.str "Customer_ID", [PyVal.str "Customers", PyVal.str "Orders"]⟩] := by
  have h := (C5_key_relationships
      [⟨PyVal.str "Customers",
        [⟨PyVal.str "Customer_ID", "Number", PyVal.num 1, PyVal.num 9, PyVal.num 9⟩]⟩,
       ⟨PyVal.str "Orders",
        [⟨PyVal.str "Customer_ID", "Number", PyVal.num 1, PyVal.num 9, PyVal.num 9⟩]⟩]
      (by decide)).1 (PyVal.str "Customer_ID") (by decide)
  rw [h]
  decide

/-- C2 counterexample: two tables each containing a column named
"CustomerID" yield NO relationship at all, because "CustomerID" matches
none of the key-suffix patterns (no separator before "ID"). -/
theorem C2_counterexample :
    relationships (buildTables
        [⟨PyVal.str "Customers", PyVal.str "CustomerID", PyVal.num 1, PyVal.num 9, PyVal.num 9⟩,
         ⟨PyVal.str "Orders", PyVal.str "CustomerID", PyVal.num 1, PyVal.num 9, PyVal.num 9⟩])
      = [] ∧ isKeyName (PyVal.str "CustomerID") = false := by
  exact ⟨by decide, by decide⟩

/-- C2 (amended): for any table list (with per-table distinct column
names) in which the tables containing a column named "Customer_ID" — a
name matching the `_ID` key-suffix pattern, unlike "CustomerID", which
matches none — are exactly two, and no other key-shaped name
co-occurs, the inferred relationships list is exactly one Relationship
with keyColumn "Customer_ID" and both table names in first-seen
order. -/
theorem C2_two_tables (ts : List Table)
    (hcols : ∀ t ∈ ts, (t.columns.map Column.name).Nodup)
    (a b : PyVal)
    (hab : containing ts (PyVal.str "Customer_ID") = [a, b])
    (hother : ∀ k : PyVal, isKeyName k = true → k ≠ PyVal.str "Customer_ID" →
      (containing ts k).length ≤ 1) :
    relationships ts = [⟨PyVal.str "Customer_ID", [a, b]⟩] := by
  have hkCID : isKeyName (PyVal.str "Customer_ID") = true := by decide
  have hoccCID : occsP (keyPairs ts) (PyVal.str "Customer_ID") = [a, b] := by
    rw [occsP_keyPairs ts _ hcols, hab]
  have hcongr : ∀ p ∈ keyColumns ts,
      (decide (1 < p.2.length))
        = (decide (1 < p.2.length) && decide (p.1 = PyVal.str "Customer_ID")) := by
    intro p hp
    by_cases hpc : p.1 = PyVal.str "Customer_ID"
    · simp [hpc]
    · have hkey := (keyColumns_ents ts p hp).1
      have hval := keyColumns_val ts p hp
      have hlen : p.2.length ≤ 1 := by
        rw [hval, occsP_keyPairs ts _ hcols]
        exact hother p.1 hkey hpc
      have : ¬(1 < p.2.length) := by omega
      simp [this]
  rw [relationships, List.filter_congr hcongr]
  have hswap : (keyColumns ts).filter
      (fun p => decide (1 < p.2.length) && decide (p.1 = PyVal.str "Customer_ID"))
      = ((keyColumns ts).filter (fun p => p.1 = PyVal.str "Customer_ID")).filter
          (fun p => 1 < p.2.length) := by
    rw [List.filter_filter]
  rw [hswap]
  have hsome : mget (keyColumns ts) (PyVal.str "Customer_ID") = some [a, b] := by
    rw [keyColumns_mget ts _ hkCID, hoccCID]
    simp
  rw [filter_key_of_mget_some _ _ _ (keyColumns_nodup ts) hsome]
  rw [List.filter_cons_of_pos (by simp)]
  rfl

/-- Witness for C2 (amended) at a concrete two-table schema. -/
theorem C2_witness :
    relationships
        [⟨PyVal.str "Customers",
          [⟨PyVal.str "Name", "Text", PyVal.str "A", PyVal.str "Z", PyVal.num 9⟩,
           ⟨PyVal.str "Customer_ID", "Number", PyVal.num 1, PyVal.num 9, PyVal.num 9⟩]⟩,
         ⟨PyVal.str "Orders",
          [⟨PyVal.str "Customer_ID", "Number", PyVal.num 1, PyVal.num 9, PyVal.num 9⟩]⟩]
      = [⟨PyVal.str "Customer_ID", [PyVal.str "Customers", PyVal.str "Orders"]⟩] := by
  refine C2_two_tables _ (by decide) (PyVal.str "Customers") (PyVal.str "Orders")
    (by decide) ?_
  intro k hk hne
  have hcust : ∀ c : Column,
      c ∈ [(⟨PyVal.str "Name", "Text", PyVal.str "A", PyVal.str "Z", PyVal.num 9⟩ : Column),
           ⟨PyVal.str "Customer_ID", "Number", PyVal.num 1, PyVal.num 9, PyVal.num 9⟩] →
      (c.name = k) = False := by
    intro c hcm
    rcases List.mem_cons.1 hcm with h1 | h1
    · subst h1
      simp only [eq_iff_iff, iff_false]
      intro he
      rw [← he] at hk
      exact absurd hk (by decide)
    · have h2 : c = ⟨PyVal.str "Customer_ID", "Number", PyVal.num 1, PyVal.num 9, PyVal.num 9⟩ := by
        simpa using h1
      subst h2
      simp only [eq_iff_iff, iff_false]
      intro he
      exact hne (by rw [← he])
  have hc1 : (List.any
      [(⟨PyVal.str "Name", "Text", PyVal.str "A", PyVal.str "Z", PyVal.num 9⟩ : Column),
       ⟨PyVal.str "Customer_ID", "Number", PyVal.num 1, PyVal.num 9, PyVal.num 9⟩]
      (fun c => c.name = k)) = false := by
    rw [List.any_eq_false]
    intro c hcm
    simp [hcust c hcm]
  have hc2 : (List.any
      [(⟨PyVal.str "Customer_ID", "Number", PyVal.num 1, PyVal.num 9, PyVal.num 9⟩ : Column)]
      (fun c => c.name = k)) = false := by
    rw [List.any_eq_false]
    intro c hcm
    have h2 : c = ⟨PyVal.str "Customer_ID", "Number", PyVal.num 1, PyVal.num 9, PyVal.num 9⟩ := by
      simpa using hcm
    subst h2
    simp only [decide_eq_true_eq]
    intro he
    exact hne (by rw [← he])
  simp [containing, List.filter_cons, hc1, hc2]
